import Mathlib

/-!
Shallow embedding of the phone-number cleaning and deduplication engine of
the CleanConnect contact-export application (`excelProcessor.ts`).

Strings are modelled at the character-list level so that every operation of
the source (`split`, `trim`, `replace(/\D/g,'')`, `startsWith`, `substring`,
`length`) is an executable Lean function on `List Char`, and `String`
wrappers convert at the boundaries.  Rows coming from the spreadsheet are
association lists from column names to cell values (spreadsheet parsing
itself is an external collaborator and is out of scope).
-/

namespace CleanConnect

/-- The delimiter class of `phone.split(/[,\/]/)`: comma or slash. -/
def isDelim (c : Char) : Bool := c = ',' || c = '/'

/-- JavaScript `String.prototype.split` on a single-character delimiter
class: splitting keeps empty groups, and the empty string yields `[[]]`. -/
def splitChars (delim : Char → Bool) : List Char → List (List Char)
  | [] => [[]]
  | c :: cs =>
    if delim c then [] :: splitChars delim cs
    else
      match splitChars delim cs with
      | [] => [[c]]
      | g :: gs => (c :: g) :: gs

/-- JavaScript `String.prototype.trim`: drop leading and trailing
whitespace characters. -/
def trimChars (l : List Char) : List Char :=
  ((l.dropWhile Char.isWhitespace).reverse.dropWhile Char.isWhitespace).reverse

/-- `number.replace(/\D/g, '')` — keep only the decimal digits. -/
def stripNonDigits (l : List Char) : List Char :=
  l.filter Char.isDigit

/-- JavaScript `s.startsWith(pat)`: the first `pat.length` characters of
`s` are exactly `pat`. -/
def startsWithChars (pat l : List Char) : Bool :=
  l.take pat.length = pat

/-- Lines 37–43 of `excelProcessor.ts` (part_000): if the digit string
starts with `00` drop those two digits (`substring(2)`), then if the
result is longer than 8 characters and starts with `855` drop those three
digits (`substring(3)`). -/
def stripCountryCode (l : List Char) : List Char :=
  let l1 := if startsWithChars ['0', '0'] l then l.drop 2 else l
  if l1.length > 8 && startsWithChars ['8', '5', '5'] l1 then l1.drop 3 else l1

/-- Lines 45–48: if the string is non-empty and does not start with `0`,
prepend the trunk-prefix digit `0`. -/
def prependTrunk (l : List Char) : List Char :=
  if l.length > 0 && !startsWithChars ['0'] l then '0' :: l else l

/-- Lines 50–53: a cleaned number is valid when its length is between 7
and 11 inclusive; an invalid number becomes the empty string. -/
def validate (l : List Char) : List Char :=
  if 7 ≤ l.length ∧ l.length ≤ 11 then l else []

/-- The per-segment cleaning of lines 33–53: strip non-digits, strip
country codes, prepend the trunk prefix, then validate the length. -/
def cleanSegment (seg : List Char) : List Char :=
  validate (prependTrunk (stripCountryCode (stripNonDigits seg)))

/-- Lines 26–28: split the raw field on comma/slash, trim each segment and
drop the empty ones. -/
def segments (l : List Char) : List (List Char) :=
  ((splitChars isDelim l).map trimChars).filter (fun s => s.length > 0)

/-- Lines 33–54: clean every segment and drop the segments whose cleaning
produced the empty string. -/
def acceptedNumbers (l : List Char) : List (List Char) :=
  ((segments l).map cleanSegment).filter (fun s => s.length > 0)

/-- Insertion into the JavaScript `Set` of line 31: a `Set` keeps the
first occurrence of each value, in insertion order. -/
def setInsert (acc : List (List Char)) (n : List Char) : List (List Char) :=
  if n ∈ acc then acc else acc ++ [n]

/-- Lines 31, 57 and 60: accumulate the cleaned numbers into the `Set`
(`cleanedNumbers.forEach(num => uniqueNumbers.add(num))`) and read it back
in insertion order (`Array.from(uniqueNumbers)`). -/
def setFold (l : List (List Char)) : List (List Char) :=
  l.foldl setInsert []

/-- The duplicate-free list of canonical numbers a raw phone field yields. -/
def cleanNumbers (l : List Char) : List (List Char) :=
  setFold (acceptedNumbers l)

/-- Line 60: suffix each number with the terminator `;` and join the
results with single spaces. -/
def formatNumbers (ns : List (List Char)) : List Char :=
  List.intercalate [' '] (ns.map (fun n => n ++ [';']))

/-- `cleanPhoneNumber` (lines 22–61 of part_000): the Normalizer.  The
guard of line 23 returns the empty string for an empty input. -/
def cleanPhoneNumber (s : String) : String :=
  if s.data = [] then ""
  else ⟨formatNumbers (cleanNumbers s.data)⟩

/-- A spreadsheet row as produced by `XLSX.utils.sheet_to_json`: an ordered
association list from column name to cell value (a key is present exactly
when the cell was present; values are modelled as strings). -/
abbrev Row := List (String × String)

/-- The JavaScript `column in row` key-presence test. -/
def hasKey (r : Row) (k : String) : Bool :=
  r.any (fun kv => kv.1 = k)

/-- `contact.Phone?.toString() || ''` and the reads of `contact.Phone` in
`removeDuplicates`: the value of the `Phone` column, or the empty string
when the key is absent. -/
def getPhone (r : Row) : String :=
  ((r : List (String × String)).lookup "Phone").getD ""

/-- `{ ...contact, Phone: v }`: every other key keeps its value and its
position; `Phone` is overridden in place, or appended when absent. -/
def setPhone (r : Row) (v : String) : Row :=
  if hasKey r "Phone" then
    (r : List (String × String)).map (fun kv => if kv.1 = "Phone" then (kv.1, v) else kv)
  else r ++ [("Phone", v)]

/-- The loop of `removeDuplicates` (lines 64–82 of part_000), with the
`uniquePhones` set made explicit: a record with an empty phone is pushed
without touching the set; otherwise the record is pushed and its whole
phone string registered unless that exact string is already registered. -/
def removeDupAux (uniquePhones : List String) : List Row → List Row
  | [] => []
  | c :: rest =>
    if getPhone c = "" then c :: removeDupAux uniquePhones rest
    else if getPhone c ∈ uniquePhones then removeDupAux uniquePhones rest
    else c :: removeDupAux (getPhone c :: uniquePhones) rest

/-- `removeDuplicates`: line 65 creates the `uniquePhones` set empty on
every call. -/
def removeDuplicates (data : List Row) : List Row :=
  removeDupAux [] data

/-- The statistics block of the returned `ProcessingResult`. -/
structure Statistics where
  totalProcessed : Nat
  duplicatesRemoved : Nat
  invalidPhones : Nat
deriving DecidableEq

/-- The `ProcessingResult` resolved at lines 129–137 of part_000. -/
structure ProcessingResult where
  cleanedData : List Row
  originalData : List Row
  statistics : Statistics
deriving DecidableEq

/-- Line 107: the required columns, in the order they are checked. -/
def requiredColumns : List String := ["CID", "AID", "Name", "Phone"]

/-- The first required column absent from the given first row, if any
(the loop of lines 109–114 rejects at the first missing one). -/
def firstMissing (r : Row) : Option String :=
  requiredColumns.find? (fun c => ¬ hasKey r c)

/-- The error message of line 111. -/
def missingColumnError (c : String) : String :=
  "Required column \x22" ++ c ++ "\x22 is missing from the Excel file."

/-- Lines 118–127: one pass over the rows that replaces each `Phone` field
by its cleaned value and counts the rows whose cleaned value is empty
(the `invalidPhones` counter). -/
def cleanPass : List Row → List Row × Nat
  | [] => ([], 0)
  | r :: rest =>
    let cleanedPhone := cleanPhoneNumber (getPhone r)
    let done := cleanPass rest
    (setPhone r cleanedPhone :: done.1,
     (if cleanedPhone = "" then 1 else 0) + done.2)

/-- The row-processing pipeline of `processExcelFile` (lines 99–141 of
part_000), starting from the row sequence that the external spreadsheet
parser supplies.  The `JSON.parse(JSON.stringify(jsonData))` deep copy of
line 102 is value-equal to its input, so `originalData` is the input row
list itself.  Validation (lines 105–115) runs only when there is at least
one row; a failure rejects the promise with the error message, before any
cleaning. -/
def processRows (rows : List Row) : Except String ProcessingResult :=
  let originalData := rows
  match (match rows with
         | [] => none
         | first :: _ => firstMissing first) with
  | some c => .error (missingColumnError c)
  | none =>
    let cleaned := (cleanPass rows).1
    let invalidPhones := (cleanPass rows).2
    let originalCount := cleaned.length
    let uniqueContacts := removeDuplicates cleaned
    let duplicatesRemoved := originalCount - uniqueContacts.length
    .ok ⟨uniqueContacts, originalData,
         ⟨originalCount, duplicatesRemoved, invalidPhones⟩⟩

/-- Two consecutive invocations of the row-processing pipeline on the same
input, as the application performs them: each call constructs its own
`uniquePhones` set (line 65), so no state object is shared between the two
invocations. -/
def runTwice (rows : List Row) :
    Except String ProcessingResult × Except String ProcessingResult :=
  (processRows rows, processRows rows)

/-- First-occurrence deduplication: keep the first occurrence of every
value, in order, and drop all later repeats.  This is the reference
description of what a JavaScript `Set` accumulates. -/
def keepFirst {α : Type} [DecidableEq α] : List α → List α
  | [] => []
  | x :: xs => x :: keepFirst (xs.filter (fun y => y ≠ x))
termination_by l => l.length
decreasing_by
  all_goals
    simp only [List.length_cons]
    exact Nat.lt_succ_of_le (List.length_filter_le _ _)

section Lemmas

lemma keepFirst_nil {α : Type} [DecidableEq α] : keepFirst ([] : List α) = [] := by
  simp [keepFirst]

lemma keepFirst_cons {α : Type} [DecidableEq α] (x : α) (xs : List α) :
    keepFirst (x :: xs) = x :: keepFirst (xs.filter (fun y => y ≠ x)) := by
  simp [keepFirst]

lemma mem_keepFirst {α : Type} [DecidableEq α] :
    ∀ (l : List α) (a : α), a ∈ keepFirst l ↔ a ∈ l
  | [], a => by simp [keepFirst_nil]
  | x :: xs, a => by
    rw [keepFirst_cons]
    constructor
    · intro h
      rcases List.mem_cons.mp h with h | h
      · exact h ▸ List.mem_cons_self _ _
      · have := (mem_keepFirst (xs.filter (fun y => y ≠ x)) a).mp h
        exact List.mem_cons.mpr (Or.inr (List.mem_of_mem_filter this))
    · intro h
      rcases List.mem_cons.mp h with h | h
      · exact h ▸ List.mem_cons_self _ _
      · by_cases hax : a = x
        · exact hax ▸ List.mem_cons_self _ _
        · refine List.mem_cons.mpr (Or.inr ?_)
          exact (mem_keepFirst _ a).mpr (List.mem_filter.mpr ⟨h, by simp [hax]⟩)
termination_by l => l.length
decreasing_by
  all_goals
    simp only [List.length_cons]
    exact Nat.lt_succ_of_le (List.length_filter_le _ _)

lemma nodup_keepFirst {α : Type} [DecidableEq α] :
    ∀ l : List α, (keepFirst l).Nodup
  | [] => by simp [keepFirst_nil]
  | x :: xs => by
    rw [keepFirst_cons]
    refine List.nodup_cons.mpr ⟨?_, nodup_keepFirst (xs.filter (fun y => y ≠ x))⟩
    intro hmem
    have hx := (mem_keepFirst _ x).mp hmem
    have := (List.mem_filter.mp hx).2
    simp at this
termination_by l => l.length
decreasing_by
  all_goals
    simp only [List.length_cons]
    exact Nat.lt_succ_of_le (List.length_filter_le _ _)

lemma foldl_setInsert (l : List (List Char)) :
    ∀ acc, l.foldl setInsert acc = acc ++ keepFirst (l.filter (fun x => x ∉ acc)) := by
  induction l with
  | nil => intro acc; simp [keepFirst_nil]
  | cons x xs ih =>
    intro acc
    by_cases hx : x ∈ acc
    · have hstep : setInsert acc x = acc := by simp [setInsert, hx]
      have hfilter : (x :: xs).filter (fun y => y ∉ acc) = xs.filter (fun y => y ∉ acc) := by
        simp [List.filter_cons, hx]
      rw [List.foldl_cons, hstep, ih acc, hfilter]
    · have hstep : setInsert acc x = acc ++ [x] := by simp [setInsert, hx]
      have hfilter : (x :: xs).filter (fun y => y ∉ acc) = x :: xs.filter (fun y => y ∉ acc) := by
        simp [List.filter_cons, hx]
      rw [List.foldl_cons, hstep, ih (acc ++ [x]), hfilter, keepFirst_cons]
      have hff : xs.filter (fun y => y ∉ acc ++ [x])
          = (xs.filter (fun y => y ∉ acc)).filter (fun y => y ≠ x) := by
        rw [List.filter_filter]
        refine List.filter_congr ?_
        intro y _
        by_cases hyx : y = x <;> by_cases hya : y ∈ acc <;>
          simp [hyx, hya, List.mem_append]
      rw [hff]
      simp

lemma setFold_eq_keepFirst (l : List (List Char)) : setFold l = keepFirst l := by
  have := foldl_setInsert l []
  simpa [setFold] using this

lemma not_whitespace_of_isDigit (c : Char) (h : c.isDigit = true) :
    c.isWhitespace = false := by
  by_contra hw
  have hw' : c.isWhitespace = true := by
    cases hc : c.isWhitespace
    · exact absurd hc hw
    · rfl
  rcases (by simpa [Char.isWhitespace, or_assoc] using hw' :
      c = ' ' ∨ c = '\t' ∨ c = '\r' ∨ c = '\n') with h1 | h1 | h1 | h1 <;>
    (subst h1; simp [Char.isDigit] at h)

lemma not_delim_of_isDigit (c : Char) (h : c.isDigit = true) :
    isDelim c = false := by
  by_contra hd
  have hd' : isDelim c = true := by
    cases hc : isDelim c
    · exact absurd hc hd
    · rfl
  rcases (by simpa [isDelim] using hd' : c = ',' ∨ c = '/') with h1 | h1 <;>
    (subst h1; simp [Char.isDigit] at h)

lemma splitChars_eq_single (delim : Char → Bool) :
    ∀ l : List Char, (∀ c ∈ l, delim c = false) → splitChars delim l = [l] := by
  intro l
  induction l with
  | nil => intro _; rfl
  | cons c cs ih =>
    intro h
    have hc : delim c = false := h c (List.mem_cons_self _ _)
    have hcs : splitChars delim cs = [cs] :=
      ih (fun x hx => h x (List.mem_cons_of_mem _ hx))
    simp [splitChars, hc, hcs]

lemma dropWhile_eq_self_of (p : Char → Bool) (l : List Char)
    (h : ∀ c ∈ l, p c = false) : l.dropWhile p = l := by
  cases l with
  | nil => rfl
  | cons c cs => simp [List.dropWhile, h c (List.mem_cons_self _ _)]

lemma trimChars_eq_self (l : List Char)
    (h : ∀ c ∈ l, c.isWhitespace = false) : trimChars l = l := by
  unfold trimChars
  rw [dropWhile_eq_self_of _ l h]
  rw [dropWhile_eq_self_of _ l.reverse (fun c hc => h c (List.mem_reverse.mp hc))]
  exact List.reverse_reverse l

lemma stripNonDigits_eq_self (l : List Char)
    (h : ∀ c ∈ l, c.isDigit = true) : stripNonDigits l = l :=
  List.filter_eq_self.mpr h

lemma cleanSegment_plain_digits (l : List Char)
    (hdig : ∀ ch ∈ l, ch.isDigit = true)
    (h7 : 7 ≤ l.length) (h11 : l.length ≤ 11)
    (c : Char) (rest : List Char) (hdata : l = '0' :: c :: rest) (hc0 : c ≠ '0') :
    cleanSegment l = l := by
  subst hdata
  have hstrip : stripNonDigits ('0' :: c :: rest) = '0' :: c :: rest :=
    stripNonDigits_eq_self _ hdig
  unfold cleanSegment
  rw [hstrip]
  have h00 : startsWithChars ['0', '0'] ('0' :: c :: rest) = false := by
    simp [startsWithChars, hc0]
  have hcc : stripCountryCode ('0' :: c :: rest) = '0' :: c :: rest := by
    unfold stripCountryCode
    rw [h00]
    simp [startsWithChars, List.take]
  rw [hcc]
  have hpt : prependTrunk ('0' :: c :: rest) = '0' :: c :: rest := by
    unfold prependTrunk
    simp [startsWithChars, List.take]
  rw [hpt]
  unfold validate
  rw [if_pos ⟨h7, h11⟩]

lemma removeDupAux_filter_eq (s : String) (hs : s ≠ "") :
    ∀ (data : List Row) (uniq : List String),
      (removeDupAux uniq data).filter (fun r => getPhone r = s)
        = if s ∈ uniq then [] else (data.filter (fun r => getPhone r = s)).take 1 := by
  intro data
  induction data with
  | nil => intro uniq; simp [removeDupAux]
  | cons c rest ih =>
    intro uniq
    by_cases hph : getPhone c = ""
    · have hcs : ¬ getPhone c = s := by rw [hph]; exact fun h => hs h.symm
      rw [removeDupAux, if_pos hph]
      simp only [List.filter_cons, hcs, decide_False, if_false]
      exact ih uniq
    · rw [removeDupAux, if_neg hph]
      by_cases hmem : getPhone c ∈ uniq
      · rw [if_pos hmem]
        by_cases hcs : getPhone c = s
        · have hsu : s ∈ uniq := hcs ▸ hmem
          rw [ih uniq, if_pos hsu, if_pos hsu]
        · rw [ih uniq]
          simp [List.filter_cons, hcs]
      · rw [if_neg hmem]
        by_cases hcs : getPhone c = s
        · have hsu : s ∉ uniq := by rw [← hcs]; exact hmem
          simp only [List.filter_cons, hcs, decide_True, if_true]
          rw [ih (s :: uniq), if_pos (List.mem_cons_self s uniq), if_neg hsu]
          simp
        · have hiff : (s ∈ getPhone c :: uniq) ↔ s ∈ uniq := by
            constructor
            · intro h
              rcases List.mem_cons.mp h with h | h
              · exact absurd h.symm hcs
              · exact h
            · exact fun h => List.mem_cons_of_mem _ h
          simp only [List.filter_cons, hcs, decide_False, if_false]
          rw [ih (getPhone c :: uniq)]
          by_cases hsu : s ∈ uniq
          · rw [if_pos (hiff.mpr hsu), if_pos hsu]
            simp
          · rw [if_neg (fun h => hsu (hiff.mp h)), if_neg hsu]
            simp

lemma cleanPass_fst (rows : List Row) :
    (cleanPass rows).1 = rows.map (fun r => setPhone r (cleanPhoneNumber (getPhone r))) := by
  induction rows with
  | nil => rfl
  | cons r rest ih => simp [cleanPass, ih]

lemma cleanPass_snd (rows : List Row) :
    (cleanPass rows).2 = rows.countP (fun r => cleanPhoneNumber (getPhone r) = "") := by
  induction rows with
  | nil => rfl
  | cons r rest ih =>
    by_cases h : cleanPhoneNumber (getPhone r) = "" <;>
      simp [cleanPass, ih, List.countP_cons, h, Nat.add_comm]

lemma processRows_ok_result (rows : List Row) (res : ProcessingResult)
    (h : processRows rows = .ok res) :
    res = ⟨removeDuplicates (cleanPass rows).1, rows,
           ⟨(cleanPass rows).1.length,
            (cleanPass rows).1.length - (removeDuplicates (cleanPass rows).1).length,
            (cleanPass rows).2⟩⟩ := by
  cases rows with
  | nil =>
    have h0 : processRows ([] : List Row) = .ok ⟨[], [], ⟨0, 0, 0⟩⟩ := rfl
    rw [h0] at h
    cases h
    rfl
  | cons first rest =>
    unfold processRows at h
    dsimp only at h
    cases hfm : firstMissing first with
    | some c =>
      rw [hfm] at h
      cases h
    | none =>
      rw [hfm] at h
      cases h
      rfl

lemma removeDupAux_filter_empty :
    ∀ (data : List Row) (uniq : List String),
      (removeDupAux uniq data).filter (fun r => getPhone r = "")
        = data.filter (fun r => getPhone r = "") := by
  intro data
  induction data with
  | nil => intro uniq; simp [removeDupAux]
  | cons c rest ih =>
    intro uniq
    by_cases hph : getPhone c = ""
    · rw [removeDupAux, if_pos hph]
      simp [List.filter_cons, hph, ih uniq]
    · rw [removeDupAux, if_neg hph]
      by_cases hmem : getPhone c ∈ uniq
      · rw [if_pos hmem, ih uniq]
        simp [List.filter_cons, hph]
      · rw [if_neg hmem]
        simp [List.filter_cons, hph, ih (getPhone c :: uniq)]

lemma mem_removeDupAux :
    ∀ (data : List Row) (uniq : List String) (c : Row),
      c ∈ removeDupAux uniq data → c ∈ data := by
  intro data
  induction data with
  | nil => intro uniq c h; simp [removeDupAux] at h
  | cons x rest ih =>
    intro uniq c h
    rw [removeDupAux] at h
    by_cases hph : getPhone x = ""
    · rw [if_pos hph] at h
      rcases List.mem_cons.mp h with h | h
      · exact h ▸ List.mem_cons_self _ _
      · exact List.mem_cons_of_mem _ (ih uniq c h)
    · rw [if_neg hph] at h
      by_cases hmem : getPhone x ∈ uniq
      · rw [if_pos hmem] at h
        exact List.mem_cons_of_mem _ (ih uniq c h)
      · rw [if_neg hmem] at h
        rcases List.mem_cons.mp h with h | h
        · exact h ▸ List.mem_cons_self _ _
        · exact List.mem_cons_of_mem _ (ih _ c h)

lemma lookup_map_setPhone (v k : String) (hk : k ≠ "Phone") :
    ∀ r : Row,
      List.lookup k (r.map (fun kv => if kv.1 = "Phone" then (kv.1, v) else kv))
        = List.lookup k r := by
  intro r
  induction r with
  | nil => rfl
  | cons kv tl ih =>
    have hentry : (if kv.1 = "Phone" then (kv.1, v) else kv)
        = (kv.1, if kv.1 = "Phone" then v else kv.2) := by
      by_cases hfst : kv.1 = "Phone" <;> simp [hfst]
    rw [List.map_cons, hentry]
    by_cases hkk : k = kv.1
    · have hne : ¬ kv.1 = "Phone" := fun h => hk (hkk.trans h)
      simp [List.lookup, hkk, hne]
    · have hbeq : (k == kv.1) = false := by simp [hkk]
      simp [List.lookup, hbeq, ih]

lemma lookup_append_phone (v k : String) (hk : k ≠ "Phone") :
    ∀ r : Row, List.lookup k (r ++ [("Phone", v)]) = List.lookup k r := by
  intro r
  induction r with
  | nil =>
    have hbeq : (k == "Phone") = false := by simp [hk]
    simp [List.lookup, hbeq]
  | cons kv tl ih =>
    by_cases hkk : k = kv.1
    · simp [List.lookup, hkk]
    · have hbeq : (k == kv.1) = false := by simp [hkk]
      simp [List.lookup, hbeq, ih]

lemma lookup_setPhone (r : Row) (v : String) (k : String) (hk : k ≠ "Phone") :
    List.lookup k (setPhone r v) = List.lookup k r := by
  unfold setPhone
  by_cases hKey : hasKey r "Phone"
  · rw [if_pos hKey]
    exact lookup_map_setPhone v k hk r
  · rw [if_neg hKey]
    exact lookup_append_phone v k hk r

end Lemmas

/-- A first record whose phone field yields the single canonical number
`011111111`. -/
def c1Row1 : Row := [("CID", "1"), ("AID", "10"), ("Name", "a"), ("Phone", "011111111")]

/-- A second record whose phone field yields the two canonical numbers
`011111111` and `022222222`. -/
def c1Row2 : Row :=
  [("CID", "2"), ("AID", "20"), ("Name", "b"), ("Phone", "011111111, 022222222")]

/-- A third record whose only canonical number `022222222` was already
carried by the second record. -/
def c1Row3 : Row := [("CID", "3"), ("AID", "30"), ("Name", "c"), ("Phone", "022222222")]

/-- Claim C1, counterexample: the third record's only canonical number
`022222222` was already registered while processing the second record,
so the claim requires the third record to be dropped — but the pipeline
keeps all three records and reports zero duplicates, because the
Deduplicator compares entire formatted phone strings (`"022222222;"`
versus `"011111111; 022222222;"`), not individual canonical numbers. -/
theorem c1_counterexample :
    cleanNumbers (getPhone c1Row3).data
      = [['0', '2', '2', '2', '2', '2', '2', '2', '2']] ∧
    ['0', '2', '2', '2', '2', '2', '2', '2', '2'] ∈ cleanNumbers (getPhone c1Row2).data ∧
    (processRows [c1Row1, c1Row2, c1Row3]).map
      (fun res => (res.cleanedData.length, res.statistics.duplicatesRemoved)) = .ok (3, 0) := by
  refine ⟨by decide, by decide, rfl⟩

/-- Claim C1 as amended: deduplication is by exact whole-string match on
the record's entire normalized phone field, not per canonical number.  A
record with a non-empty normalized phone string is dropped if and only if
that exact string already occurred as the normalized phone string of an
earlier record; the first record carrying each distinct non-empty string
is kept, so a later record that shares individual numbers with earlier
records but not the exact full string is kept.  Formally: among the
records whose phone string equals any given non-empty `s`, exactly the
first survives deduplication. -/
theorem c1_amended_theorem (data : List Row) (s : String) (hs : s ≠ "") :
    (removeDuplicates data).filter (fun r => getPhone r = s)
      = (data.filter (fun r => getPhone r = s)).take 1 := by
  rw [removeDuplicates, removeDupAux_filter_eq s hs data []]
  simp

/-- Witness for the amended claim C1: of two records carrying the same
full normalized phone string, only the first is kept. -/
theorem c1_amended_witness :
    (removeDuplicates
        [[("CID", "1"), ("Phone", "011111111;")],
         [("CID", "2"), ("Phone", "011111111;")]]).filter
        (fun r => getPhone r = "011111111;")
      = (([[("CID", "1"), ("Phone", "011111111;")],
           [("CID", "2"), ("Phone", "011111111;")]] :
          List Row).filter (fun r => getPhone r = "011111111;")).take 1 :=
  c1_amended_theorem
    [[("CID", "1"), ("Phone", "011111111;")], [("CID", "2"), ("Phone", "011111111;")]]
    "011111111;" (by decide)

/-- Claim C2, counterexample: the field `"@012345678"` consists of a
single segment that contains the handle marker `@`, yet the Normalizer
does not skip it — it returns the canonical number derived from the
segment's digits, not the empty result the claim requires. -/
theorem c2_counterexample :
    ('@' ∈ "@012345678".data) ∧
    cleanPhoneNumber "@012345678" = "012345678;" ∧
    ("012345678;" : String) ≠ "" := by
  refine ⟨by decide, by decide, by decide⟩

/-- Claim C2 as amended: the Normalizer never skips a segment because of
`@` or "telegram"; every non-digit character (including `@` and letters)
is simply stripped, so such segments contribute their digit-derived
number whenever it is valid.  Prepending `@` to a segment leaves its
cleaning unchanged, and `normalize("Telegram: @someuser, 077123456")`
still returns only the number of the second segment — because the first
segment contains no digits at all, not because it is skipped. -/
theorem c2_amended_theorem :
    cleanPhoneNumber "Telegram: @someuser, 077123456" = "077123456;" ∧
    ∀ seg : List Char, cleanSegment ('@' :: seg) = cleanSegment seg := by
  refine ⟨by decide, fun seg => ?_⟩
  unfold cleanSegment stripNonDigits
  simp [List.filter_cons]

/-- Claim C3, counterexample: `"0012345"` is a digit-only string of
length 7 that starts with the trunk-prefix digit `0`, but the Normalizer
does not return it unchanged with a terminator: the leading `00` is
stripped as an international prefix, a `0` is prepended to the remaining
five digits, and the six-digit result is discarded as invalid, so the
output is the empty string rather than `"0012345;"`. -/
theorem c3_counterexample :
    (∀ ch ∈ "0012345".data, ch.isDigit = true) ∧
    "0012345".data.length = 7 ∧
    "0012345".data.take 1 = ['0'] ∧
    cleanPhoneNumber "0012345" = "" ∧
    ("" : String) ≠ "0012345;" := by
  refine ⟨by decide, by decide, by decide, by decide, by decide⟩

/-- Claim C3 as amended: for every digit-only string of length 7 to 11
inclusive that starts with the trunk-prefix digit `0` but does not start
with `00` (which the code treats as an international prefix and strips),
`normalize` returns exactly that string with the terminator `;` appended,
digits unchanged. -/
theorem c3_amended_theorem (s : String)
    (hdig : ∀ ch ∈ s.data, ch.isDigit = true)
    (h7 : 7 ≤ s.data.length) (h11 : s.data.length ≤ 11)
    (hstart : ∃ c rest, s.data = '0' :: c :: rest ∧ c ≠ '0') :
    cleanPhoneNumber s = ⟨s.data ++ [';']⟩ := by
  obtain ⟨c, rest, hdata, hc0⟩ := hstart
  have hne : s.data ≠ [] := by rw [hdata]; exact List.cons_ne_nil _ _
  have hpos : 0 < s.data.length := by omega
  have hlen : ¬ s.length = 0 := by
    simp only [String.length]
    omega
  have hseg : segments s.data = [s.data] := by
    unfold segments
    rw [splitChars_eq_single _ _ (fun ch hm => not_delim_of_isDigit ch (hdig ch hm))]
    rw [List.map_cons, List.map_nil]
    rw [trimChars_eq_self _ (fun ch hm => not_whitespace_of_isDigit ch (hdig ch hm))]
    simp [List.filter_cons, hlen]
  have hacc : acceptedNumbers s.data = [s.data] := by
    unfold acceptedNumbers
    rw [hseg, List.map_cons, List.map_nil,
        cleanSegment_plain_digits s.data hdig h7 h11 c rest hdata hc0]
    simp [List.filter_cons, hlen]
  have hclean : cleanNumbers s.data = [s.data] := by
    unfold cleanNumbers
    rw [hacc]
    simp [setFold, setInsert]
  unfold cleanPhoneNumber
  rw [if_neg hne, hclean]
  show String.mk (formatNumbers [s.data]) = _
  simp [formatNumbers, List.intercalate]

/-- Witness for the amended claim C3, at the concrete input
`"077123456"`. -/
theorem c3_amended_witness :
    cleanPhoneNumber "077123456" = ⟨"077123456".data ++ [';']⟩ :=
  c3_amended_theorem "077123456" (by decide) (by decide) (by decide)
    ⟨'7', ['7', '1', '2', '3', '4', '5', '6'], by decide, by decide⟩

/-- Claim C4: for every raw phone field, the list of canonical numbers the
Normalizer produces is duplicate-free and is exactly the first-occurrence
deduplication of the per-segment accepted numbers (the first occurrence
fixes the position, later repeats within the same field are dropped); in
particular `normalize("077 123 456, 077 123 456")` returns the single
canonical number exactly once. -/
theorem c4_within_field_dedup :
    (∀ l : List Char,
      cleanNumbers l = keepFirst (acceptedNumbers l) ∧ (cleanNumbers l).Nodup) ∧
    cleanPhoneNumber "077 123 456, 077 123 456" = "077123456;" := by
  refine ⟨fun l => ⟨setFold_eq_keepFirst _, ?_⟩, by decide⟩
  show (setFold (acceptedNumbers l)).Nodup
  rw [setFold_eq_keepFirst]
  exact nodup_keepFirst _

/-- Claim C5: if any required column (CID, AID, Name or Phone) is absent
from the first row, the whole run fails with an error naming a specific
missing required column; the result is an `error`, which carries no
cleaned records, so the failure occurs before any phone field is
cleaned. -/
theorem c5_missing_column (first : Row) (rest : List Row)
    (h : ∃ c ∈ requiredColumns, hasKey first c = false) :
    ∃ c, c ∈ requiredColumns ∧ hasKey first c = false ∧
      processRows (first :: rest) = .error (missingColumnError c) := by
  have hsome : (firstMissing first).isSome := by
    rw [firstMissing, List.find?_isSome]
    obtain ⟨c, hc, hk⟩ := h
    exact ⟨c, hc, by simp [hk]⟩
  obtain ⟨c, hc⟩ := Option.isSome_iff_exists.mp hsome
  have hmem : c ∈ requiredColumns := List.mem_of_find?_eq_some hc
  have hkey : hasKey first c = false := by
    have := List.find?_some hc
    simpa using this
  refine ⟨c, hmem, hkey, ?_⟩
  unfold processRows
  dsimp only
  rw [hc]

/-- Witness for claim C5: a first row lacking the `AID` column makes the
run fail naming a missing required column. -/
theorem c5_missing_column_witness :
    ∃ c, c ∈ requiredColumns ∧
      hasKey [("CID", "1"), ("Name", "a"), ("Phone", "077123456")] c = false ∧
      processRows [[("CID", "1"), ("Name", "a"), ("Phone", "077123456")]]
        = .error (missingColumnError c) :=
  c5_missing_column [("CID", "1"), ("Name", "a"), ("Phone", "077123456")] []
    ⟨"AID", by decide, by decide⟩

/-- Claim C6: on every successful run, `totalProcessed` equals the number
of input rows, `invalidPhones` equals the number of rows whose Normalizer
output was the empty string, and `duplicatesRemoved` equals the number of
input rows minus the number of kept records. -/
theorem c6_statistics (rows : List Row) (res : ProcessingResult)
    (h : processRows rows = .ok res) :
    res.statistics.totalProcessed = rows.length ∧
    res.statistics.invalidPhones
      = rows.countP (fun r => cleanPhoneNumber (getPhone r) = "") ∧
    res.statistics.duplicatesRemoved = rows.length - res.cleanedData.length := by
  have hres := processRows_ok_result rows res h
  subst hres
  refine ⟨?_, ?_, ?_⟩
  · show (cleanPass rows).1.length = rows.length
    rw [cleanPass_fst, List.length_map]
  · exact cleanPass_snd rows
  · show (cleanPass rows).1.length - _ = rows.length - _
    rw [cleanPass_fst, List.length_map]

/-- The row used to witness claims C6 and its cleaned form. -/
def c6Row : Row := [("CID", "1"), ("AID", "1"), ("Name", "n"), ("Phone", "077123456")]

/-- The result `processRows [c6Row]` resolves to. -/
def c6Res : ProcessingResult :=
  ⟨[[("CID", "1"), ("AID", "1"), ("Name", "n"), ("Phone", "077123456;")]],
   [c6Row], ⟨1, 0, 0⟩⟩

/-- Witness for claim C6 at a concrete one-row input. -/
theorem c6_statistics_witness :
    c6Res.statistics.totalProcessed = [c6Row].length ∧
    c6Res.statistics.invalidPhones
      = [c6Row].countP (fun r => cleanPhoneNumber (getPhone r) = "") ∧
    c6Res.statistics.duplicatesRemoved = [c6Row].length - c6Res.cleanedData.length :=
  c6_statistics [c6Row] c6Res (by rfl)

/-- Claim C7: records whose normalized phone field is empty are always
kept by the Deduplicator, however often they recur — the sublist of
empty-phone records is preserved exactly, and so is their count, so none
of them is ever counted as a duplicate. -/
theorem c7_empty_phone_kept (data : List Row) :
    (removeDuplicates data).filter (fun r => getPhone r = "")
        = data.filter (fun r => getPhone r = "") ∧
    (removeDuplicates data).countP (fun r => getPhone r = "")
        = data.countP (fun r => getPhone r = "") := by
  have hf := removeDupAux_filter_empty data []
  refine ⟨hf, ?_⟩
  rw [List.countP_eq_length_filter, List.countP_eq_length_filter, removeDuplicates, hf]

/-- Claim C8: on every successful run the original rows are returned
unmodified alongside the cleaned records, and every kept record is the
phone-update of some input row — it agrees with that row on the value of
every column other than `Phone`. -/
theorem c8_frame (rows : List Row) (res : ProcessingResult)
    (h : processRows rows = .ok res) :
    res.originalData = rows ∧
    ∀ c ∈ res.cleanedData, ∃ r ∈ rows,
      c = setPhone r (cleanPhoneNumber (getPhone r)) ∧
      ∀ k, k ≠ "Phone" → List.lookup k c = List.lookup k r := by
  have hres := processRows_ok_result rows res h
  subst hres
  refine ⟨rfl, ?_⟩
  intro c hc
  have hc' : c ∈ (cleanPass rows).1 := mem_removeDupAux _ _ _ hc
  rw [cleanPass_fst] at hc'
  obtain ⟨r, hr, hrc⟩ := List.mem_map.mp hc'
  refine ⟨r, hr, hrc.symm, fun k hk => ?_⟩
  rw [← hrc]
  exact lookup_setPhone r _ k hk

/-- The row used to witness claim C8. -/
def c8Row : Row := [("CID", "7"), ("AID", "8"), ("Name", "m"), ("Phone", "077123456")]

/-- The result `processRows [c8Row]` resolves to. -/
def c8Res : ProcessingResult :=
  ⟨[[("CID", "7"), ("AID", "8"), ("Name", "m"), ("Phone", "077123456;")]],
   [c8Row], ⟨1, 0, 0⟩⟩

/-- Witness for claim C8 at a concrete one-row input. -/
theorem c8_frame_witness :
    c8Res.originalData = [c8Row] ∧
    ∀ c ∈ c8Res.cleanedData, ∃ r ∈ [c8Row],
      c = setPhone r (cleanPhoneNumber (getPhone r)) ∧
      ∀ k, k ≠ "Phone" → List.lookup k c = List.lookup k r :=
  c8_frame [c8Row] c8Res (by rfl)

/-- Claim C9: processing is deterministic across runs — two consecutive
invocations of the pipeline on the same input produce identical results.
In the embedding this holds definitionally, precisely because the
`uniquePhones` registry is a local of `removeDuplicates` created empty on
every call (line 65), so no deduplication state survives from one
invocation into the next; the second conjunct records that every run's
deduplication starts from the empty registry. -/
theorem c9_deterministic (rows : List Row) :
    (runTwice rows).1 = (runTwice rows).2 ∧
    removeDuplicates = fun data => removeDupAux [] data :=
  ⟨rfl, rfl⟩

/-- Claim C10: a run over zero rows succeeds — the required-column
validation is skipped entirely, no error is raised even though no column
is present, and the result is an empty record list with all three
statistics equal to zero. -/
theorem c10_empty_input :
    processRows [] = .ok ⟨[], [], ⟨0, 0, 0⟩⟩ := rfl

end CleanConnect
